import Mathlib

/-!
Verification of the dremio-mcp asynchronous query-execution engine and
capability-gated tool registry, shallowly embedded from the Python source:

* `src/dremioai/api/dremio/sql.py` — job states, polling loop, error-message
  selection, paginated result fetching (`get_results`);
* `src/dremioai/api/util.py` — `run_in_parallel` (semaphore-bounded
  `asyncio.gather` fan-out);
* `src/dremioai/tools/tools.py` — `is_tool_for` gating and
  `RunSqlQuery.ensure_query_allowed` (the SQL safety gate);
* `src/dremioai/config/tools.py` — the `ToolType` flag set.
-/

namespace DremioMCP

/-! ## Job state machine (`sql.py`, `JobState` and `Job`) -/

/-- The `JobState` enumeration from `sql.py`. -/
inductive JobState where
  | NOT_SUBMITTED
  | STARTING
  | RUNNING
  | COMPLETED
  | CANCELED
  | FAILED
  | CANCELLATION_REQUESTED
  | PLANNING
  | PENDING
  | METADATA_RETRIEVAL
  | QUEUED
  | ENGINE_START
  | EXECUTION_PLANNING
  | INVALID_STATE
deriving DecidableEq, Repr

/-- The fields of the `Job` model from `sql.py` that the engine core reads.
`error_message` and `cancellation_reason` are optional strings; Python
truthiness on them is modelled by `pyTruthy`. -/
structure Job where
  job_state : JobState
  row_count : Nat
  error_message : Option String := none
  cancellation_reason : Option String := none
deriving DecidableEq, Repr

/-- Property `Job.done` from `sql.py`: membership in `{COMPLETED, CANCELED, FAILED}`. -/
def Job.done (j : Job) : Bool :=
  j.job_state = JobState.COMPLETED ∨ j.job_state = JobState.CANCELED ∨
    j.job_state = JobState.FAILED

/-- Property `Job.succeeded` from `sql.py`. -/
def Job.succeeded (j : Job) : Bool :=
  j.job_state = JobState.COMPLETED

/-- Python truthiness of an optional string: `None` and `""` are falsy. -/
def pyTruthy (o : Option String) : Bool :=
  match o with
  | none => false
  | some s => s ≠ ""

/-- The error message selected by `get_results` for a job that did not
succeed (`sql.py` lines 193–203):
`job.error_message if job.error_message else (job.cancellation_reason if
job.job_state == JobState.CANCELED else "Unknown error")`. -/
def jobErrorMessage (j : Job) : Option String :=
  if pyTruthy j.error_message then j.error_message
  else if j.job_state = JobState.CANCELED then j.cancellation_reason
  else some "Unknown error"

/-- The error message C5 asserts, following the spec's words
("on CANCELED, the cancellation reason if present, else the job's error
message"; FAILED as the code has it). For comparison with
`jobErrorMessage`. -/
def specErrorMessageC5 (j : Job) : Option String :=
  if j.job_state = JobState.CANCELED then
    if j.cancellation_reason ≠ none then j.cancellation_reason
    else j.error_message
  else if pyTruthy j.error_message then j.error_message
  else some "Unknown error"

/-! ## Polling loop (`get_results`, `sql.py` lines 188–191)

`while not job.done: await asyncio.sleep(0.5); job = ...poll...`. The loop is
modelled over the stream of job values the successive polls return. The loop
itself has no bound, so the model takes fuel: `none` means the loop has not
exited within `fuel` polls. -/

/-- Seconds slept between successive polls: `asyncio.sleep(0.5)`. -/
def pollSleepSeconds : ℚ := 1/2

/-- The polling loop of `get_results`, observing the job stream starting at
poll index `k`; returns the index of the first poll whose job is done, when
it occurs within `fuel` further polls. -/
def pollLoop (jobs : Nat → Job) : Nat → Nat → Option Nat
  | 0, _ => none
  | fuel + 1, k => if (jobs k).done then some k else pollLoop jobs fuel (k + 1)

theorem pollLoop_done {jobs : Nat → Job} {fuel k r : Nat}
    (h : pollLoop jobs fuel k = some r) :
    (jobs r).done = true ∧ k ≤ r ∧ ∀ i, k ≤ i → i < r → (jobs i).done = false := by
  induction fuel generalizing k with
  | zero => simp [pollLoop] at h
  | succ fuel ih =>
    rw [pollLoop] at h
    by_cases hd : (jobs k).done
    · simp [hd] at h
      subst h
      exact ⟨hd, le_refl _, fun i h1 h2 => absurd h1 (by omega)⟩
    · simp [hd] at h
      obtain ⟨hdone, hle, hmin⟩ := ih h
      refine ⟨hdone, by omega, fun i h1 h2 => ?_⟩
      rcases Nat.eq_or_lt_of_le h1 with h1 | h1
      · simpa [← h1] using (Bool.of_not_eq_true hd)
      · exact hmin i h1 h2

theorem pollLoop_exits {jobs : Nat → Job} {r : Nat} (hr : (jobs r).done = true)
    (hmin : ∀ i, i < r → (jobs i).done = false) :
    pollLoop jobs (r + 1) 0 = some r := by
  suffices h : ∀ fuel k, k + fuel = r + 1 → (∀ i, k ≤ i → i < r → (jobs i).done = false) →
      k ≤ r → pollLoop jobs fuel k = some r by
    exact h (r + 1) 0 (by omega) (fun i _ h2 => hmin i h2) (by omega)
  intro fuel
  induction fuel with
  | zero => intro k hk _ hkr; omega
  | succ fuel ih =>
    intro k hk hm hkr
    rw [pollLoop]
    rcases Nat.eq_or_lt_of_le hkr with h | h
    · simp [h, hr]
    · have hkf : (jobs k).done = false := hm k (le_refl _) h
      simp [hkf]
      exact ih (k + 1) (by omega) (fun i h1 h2 => hm i (by omega) h2) (by omega)

theorem pollLoop_no_timeout {jobs : Nat → Job}
    (h : ∀ i, (jobs i).done = false) (fuel k : Nat) :
    pollLoop jobs fuel k = none := by
  induction fuel generalizing k with
  | zero => rfl
  | succ fuel ih => rw [pollLoop]; simp [h k]; exact ih (k + 1)

/-! ## Paginated result fetcher (`get_results`, `sql.py` lines 205–216)

`limit = min(500, job.row_count)` and one fetch per
`off in range(0, job.row_count, limit)`. -/

/-- Fuel-driven worker for `pyRange`; `stop - start` fuel always suffices
because each iteration advances `start` by at least one. -/
def pyRangeAux (stop step : Nat) : Nat → Nat → List Nat
  | 0, _ => []
  | fuel + 1, start =>
    if 0 < step ∧ start < stop then start :: pyRangeAux stop step fuel (start + step)
    else []

/-- Python `range(start, stop, step)` for a nonnegative step; empty when
`step = 0` (Python raises `ValueError` there, and `get_results` never calls
it with step 0 because of the `row_count == 0` short-circuit). -/
def pyRange (start stop step : Nat) : List Nat :=
  pyRangeAux stop step (stop - start) start

theorem pyRangeAux_congr (stop step : Nat) :
    ∀ fuel₁ fuel₂ start, stop - start ≤ fuel₁ → stop - start ≤ fuel₂ →
      pyRangeAux stop step fuel₁ start = pyRangeAux stop step fuel₂ start := by
  intro fuel₁
  induction fuel₁ with
  | zero =>
    intro fuel₂ start h1 _
    cases fuel₂ with
    | zero => rfl
    | succ fuel₂ => rw [pyRangeAux, pyRangeAux, if_neg (by omega)]
  | succ fuel₁ ih =>
    intro fuel₂ start h1 h2
    cases fuel₂ with
    | zero => rw [pyRangeAux, pyRangeAux, if_neg (by omega)]
    | succ fuel₂ =>
      rw [pyRangeAux, pyRangeAux]
      by_cases hc : 0 < step ∧ start < stop
      · rw [if_pos hc, if_pos hc, ih fuel₂ (start + step) (by omega) (by omega)]
      · rw [if_neg hc, if_neg hc]

/-- The recurrence `pyRange` satisfies, mirroring Python `range` semantics
directly. -/
theorem pyRange_eq (start stop step : Nat) :
    pyRange start stop step =
      if 0 < step ∧ start < stop then start :: pyRange (start + step) stop step
      else [] := by
  by_cases hc : 0 < step ∧ start < stop
  · rw [if_pos hc]
    rw [pyRange, pyRange, show stop - start = (stop - start - 1) + 1 by omega,
      pyRangeAux, if_pos hc]
    rw [pyRangeAux_congr stop step (stop - start - 1) (stop - (start + step))
      (start + step) (by omega) (by omega)]
  · rw [if_neg hc]
    rw [pyRange]
    rcases Nat.eq_zero_or_pos (stop - start) with h | h
    · rw [h]; rfl
    · rw [show stop - start = (stop - start - 1) + 1 by omega, pyRangeAux, if_neg hc]

/-- The page-size limit chosen by `get_results`: `min(500, row_count)`. -/
def fetchLimit (rowCount : Nat) : Nat := min 500 rowCount

/-- The `(offset, limit)` windows `get_results` requests for a job, in the
order the fetch coroutines are created. The `row_count == 0` case returns
early before any window is built. -/
def fetchWindows (rowCount : Nat) : List (Nat × Nat) :=
  if rowCount = 0 then []
  else (pyRange 0 rowCount (fetchLimit rowCount)).map (fun off => (off, fetchLimit rowCount))

theorem mem_pyRange {start stop step x : Nat} (hstep : 0 < step) :
    x ∈ pyRange start stop step ↔ start ≤ x ∧ x < stop ∧ (x - start) % step = 0 := by
  by_cases h : start < stop
  · rw [pyRange_eq, if_pos ⟨hstep, h⟩, List.mem_cons]
    constructor
    · rintro (rfl | hx)
      · exact ⟨le_refl _, h, by simp⟩
      · obtain ⟨h1, h2, h3⟩ := (mem_pyRange hstep).mp hx
        refine ⟨by omega, h2, ?_⟩
        have : x - start = (x - (start + step)) + step := by omega
        rw [this, Nat.add_mod_right] at *
        exact h3
    · rintro ⟨h1, h2, h3⟩
      rcases Nat.eq_or_lt_of_le h1 with h1 | h1
      · exact Or.inl h1.symm
      · right
        rw [mem_pyRange hstep]
        have hss : start + step ≤ x := by
          rcases Nat.lt_or_ge x (start + step) with hx | hx
          · exfalso
            have hlt : x - start < step := by omega
            have := Nat.eq_zero_of_dvd_of_lt (Nat.dvd_of_mod_eq_zero h3)
            omega
          · exact hx
        refine ⟨hss, h2, ?_⟩
        have : x - start = (x - (start + step)) + step := by omega
        rw [this, Nat.add_mod_right] at h3
        exact h3
  · rw [pyRange_eq, if_neg (by omega)]
    simp only [List.not_mem_nil, false_iff]
    omega
termination_by stop - start
decreasing_by all_goals omega

/-- Concatenating the `[off, off+limit)` slices of `l` over the offsets of a
Python range stepping by `limit` recovers the suffix of `l` from `start`. -/
theorem pyRange_slices (l : List α) (limit : Nat) (hl : 0 < limit) :
    ∀ start, ((pyRange start l.length limit).map
      (fun off => (l.drop off).take limit)).flatten = l.drop start := by
  suffices h : ∀ fuel start, l.length - start ≤ fuel →
      ((pyRange start l.length limit).map
        (fun off => (l.drop off).take limit)).flatten = l.drop start by
    exact fun start => h (l.length - start) start (le_refl _)
  intro fuel
  induction fuel with
  | zero =>
    intro start hf
    have hge : l.length ≤ start := by omega
    rw [pyRange_eq, if_neg (by omega)]
    simp only [List.map_nil, List.flatten_nil]
    exact (List.drop_eq_nil_of_le hge).symm
  | succ fuel ih =>
    intro start hf
    by_cases h : start < l.length
    · rw [pyRange_eq, if_pos ⟨hl, h⟩]
      simp only [List.map_cons, List.flatten_cons]
      rw [ih (start + limit) (by omega)]
      rw [show l.drop (start + limit) = (l.drop start).drop limit by
        simp [List.drop_drop, Nat.add_comm]]
      exact List.take_append_drop _ _
    · rw [pyRange_eq, if_neg (by omega)]
      simp only [List.map_nil, List.flatten_nil]
      exact (List.drop_eq_nil_of_le (by omega)).symm

/-! ## Bounded parallel executor (`util.py`, `run_in_parallel`)

`run_in_parallel` wraps the coroutines in a semaphore guard and hands them,
in input order, to `asyncio.gather`, whose documented semantics is to return
the result of the i-th input coroutine at output position i. The model makes
that order guarantee a theorem rather than an assumption: tasks complete in
an arbitrary `order` (a list of input indices, each completed task recorded
as it finishes), and the gathered output is assembled by input index from the
completion log. -/

/-- Default `max_concurrent_tasks` of `run_in_parallel`. -/
def defaultMaxConcurrentTasks : Nat := 10

/-- The completion log: for each index in `order` (the completion sequence),
the pair of the index and that task's result. Indices out of range complete
nothing. -/
def runSchedule (evals : List β) (order : List Nat) : List (Nat × β) :=
  order.filterMap (fun i => (evals.get? i).map (fun b => (i, b)))

/-- Assembling `asyncio.gather`'s output from the completion log: slot `i`
holds the first completion recorded for input index `i`. -/
def gatherSlots (n : Nat) (completed : List (Nat × β)) : List (Option β) :=
  (List.range n).map (fun i => (completed.find? (fun p => p.1 == i)).map Prod.snd)

theorem runSchedule_mem {evals : List β} {order : List Nat} {q : Nat × β}
    (h : q ∈ runSchedule evals order) : evals.get? q.1 = some q.2 := by
  simp only [runSchedule, List.mem_filterMap] at h
  obtain ⟨j, _, hq⟩ := h
  cases he : evals.get? j with
  | none => rw [he] at hq; simp at hq
  | some v =>
    rw [he] at hq
    simp only [Option.map_some'] at hq
    cases hq
    exact he

theorem runSchedule_find {evals : List β} {order : List Nat}
    (hcov : ∀ i, i < evals.length → i ∈ order) (i : Nat) (hi : i < evals.length) :
    (runSchedule evals order).find? (fun p => p.1 == i) = some (i, evals.get ⟨i, hi⟩) := by
  have hmem : (i, evals.get ⟨i, hi⟩) ∈ runSchedule evals order := by
    simp only [runSchedule, List.mem_filterMap]
    exact ⟨i, hcov i hi, by rw [List.get?_eq_get hi]; rfl⟩
  have hsome : ((runSchedule evals order).find? (fun p => p.1 == i)).isSome :=
    List.find?_isSome.mpr ⟨_, hmem, by simp⟩
  obtain ⟨q, hq⟩ := Option.isSome_iff_exists.mp hsome
  have hqi : q.1 = i := by simpa using List.find?_some hq
  have hqv : evals.get? q.1 = some q.2 := runSchedule_mem (List.mem_of_find?_eq_some hq)
  rw [hqi, List.get?_eq_get hi] at hqv
  rw [hq]
  have : q = (i, evals.get ⟨i, hi⟩) := by
    cases q
    simp only at hqi hqv
    simp [hqi, ← Option.some_inj.mp hqv]
  rw [this]

/-- Order preservation of the executor: whatever the completion order, as
long as every task eventually completes, the assembled output lists the
results in input order. -/
theorem gather_ordered {evals : List β} {order : List Nat}
    (hcov : ∀ i, i < evals.length → i ∈ order) :
    gatherSlots evals.length (runSchedule evals order) = evals.map some := by
  apply List.ext_get
  · simp [gatherSlots]
  · intro i h1 h2
    simp only [gatherSlots, List.length_map, List.length_range] at h1 h2 ⊢
    have hi : i < evals.length := by simpa using h2
    rw [List.get_map, List.get_map]
    simp only [List.get_range]
    rw [runSchedule_find hcov i hi]
    rfl

/-- The first failure in the completion log, if any: `asyncio.gather` with
the default `return_exceptions=False` fails the whole batch as soon as one
awaited task raises. -/
def firstFailure (completed : List (Nat × Except ε β)) : Option ε :=
  completed.findSome? (fun p => match p.2 with | .error e => some e | .ok _ => none)

/-- Function `run_in_parallel` as observed by its caller: run all coroutines (results
given by `evals`, completion sequence by `order`), fail with the first error
completed if any task raises, and otherwise return all results in input
order. -/
def run_in_parallel (evals : List (Except ε β)) (order : List Nat) :
    Except ε (List β) :=
  match firstFailure (runSchedule evals order) with
  | some e => .error e
  | none => .ok (((gatherSlots evals.length (runSchedule evals order)).reduceOption).filterMap
      Except.toOption)

theorem run_in_parallel_ok {β : Type u} (vals : List β) (order : List Nat)
    (hcov : ∀ i, i < vals.length → i ∈ order) :
    run_in_parallel (ε := String) (vals.map Except.ok) order = .ok vals := by
  have hnofail : firstFailure (runSchedule (vals.map (Except.ok (ε := String))) order) = none := by
    rw [firstFailure, List.findSome?_eq_none]
    intro q hq
    have := runSchedule_mem hq
    have hqok : q.2 ∈ vals.map (Except.ok (ε := String)) := List.get?_mem this
    simp only [List.mem_map] at hqok
    obtain ⟨v, _, hv⟩ := hqok
    simp [← hv]
  rw [run_in_parallel, hnofail]
  have hcov' : ∀ i, i < (vals.map (Except.ok (ε := String))).length → i ∈ order := by
    simpa using hcov
  rw [gather_ordered hcov']
  simp [List.reduceOption, List.filterMap_map, List.filterMap_filterMap,
    Except.toOption, Function.comp_def]

theorem run_in_parallel_fails {β : Type u} (evals : List (Except String β))
    (order : List Nat) (e : String) (he : Except.error e ∈ evals)
    (hcov : ∀ i, i < evals.length → i ∈ order) :
    ∃ e', run_in_parallel evals order = .error e' := by
  obtain ⟨i, hi⟩ := List.get_of_mem he
  have hfe : evals.get? i = some (Except.error e) := by
    rw [List.get?_eq_get i.isLt, hi]
  have hmem : ((i : Nat), Except.error (α := β) e) ∈ runSchedule evals order := by
    simp only [runSchedule, List.mem_filterMap]
    exact ⟨i, hcov i i.isLt, by rw [hfe]; rfl⟩
  have : firstFailure (runSchedule evals order) ≠ none := by
    rw [firstFailure, Ne, List.findSome?_eq_none]
    intro hall
    have := hall _ hmem
    simp at this
  obtain ⟨e', he'⟩ := Option.ne_none_iff_exists'.mp this
  exact ⟨e', by rw [run_in_parallel, he']⟩

/-! ## The semaphore bound of `run_in_parallel`

`sem_task` acquires one permit of `Semaphore(max_concurrent_tasks)` before
awaiting its coroutine and releases it after. A task is "in flight" exactly
while it holds a permit. The executor's evolution is a transition system:
a task may start only when a permit is free (fewer than `n` holders), and a
running task may finish at any time. -/

/-- A snapshot of one `run_in_parallel` batch: tasks still waiting on the
semaphore, tasks in flight (holding a permit), and tasks finished. -/
structure ExecState where
  pending : Nat
  inFlight : Nat
  finished : Nat
deriving DecidableEq, Repr

/-- One scheduling step of the semaphore-guarded batch with permit count
`n`: `acquire` (a pending task obtains a permit; requires a free permit,
i.e. fewer than `n` current holders) or `release` (an in-flight task
completes its await and gives its permit back). -/
inductive SemStep (n : Nat) : ExecState → ExecState → Prop
  | acquire (p r f : Nat) : r < n → SemStep n ⟨p + 1, r, f⟩ ⟨p, r + 1, f⟩
  | release (p r f : Nat) : SemStep n ⟨p, r + 1, f⟩ ⟨p, r, f + 1⟩

/-- States reachable by a batch of `total` tasks under permit count `n`,
starting with every task pending and none in flight. -/
def ExecReachable (n total : Nat) (s : ExecState) : Prop :=
  Relation.ReflTransGen (SemStep n) ⟨total, 0, 0⟩ s

/-! ## Page assembly (`get_results`, `sql.py` lines 205–228) -/

/-- The rows the server returns for the window `(offset, limit)` of a result
set whose complete row sequence is `rows` — the external collaborator
`get_job_result_page` behaving as documented. -/
def pageRows (rows : List ρ) (w : Nat × Nat) : List ρ :=
  (rows.drop w.1).take w.2

/-- The pages fetched by `get_results`, listed in window (coroutine input)
order; empty when the `row_count == 0` short-circuit returns early. -/
def fetchedPages (rows : List ρ) : List (List ρ) :=
  (fetchWindows rows.length).map (pageRows rows)

/-- The row sequence of the assembled result `get_results` returns:
`itertools.chain` over the pages in the order `run_in_parallel` returned
them, which is window order. -/
def get_results_rows (rows : List ρ) : List ρ :=
  (fetchedPages rows).flatten

/-- The whole fetch stage including the executor: the pages complete in the
arbitrary sequence `order`, and the assembled rows are built from the
executor's output; `none` models a raised `FetchError`. -/
def get_results_via (rows : List ρ) (order : List Nat) : Option (List ρ) :=
  match run_in_parallel ((fetchedPages rows).map Except.ok) order with
  | .ok pages => some pages.flatten
  | .error (_ : String) => none

theorem fetchLimit_pos {rc : Nat} (h : 0 < rc) : 0 < fetchLimit rc := by
  simp [fetchLimit]; omega

/-- Sequentially assembling the fetched pages in window order recovers the
original row sequence. -/
theorem get_results_rows_eq (rows : List ρ) : get_results_rows rows = rows := by
  rw [get_results_rows, fetchedPages, fetchWindows]
  by_cases h : rows.length = 0
  · simp [h, List.length_eq_zero.mp h]
  · simp only [h, ite_false, List.map_map]
    have := pyRange_slices rows (fetchLimit rows.length) (fetchLimit_pos (by omega)) 0
    rw [List.drop_zero] at this
    simpa [pageRows, Function.comp_def] using this

/-- The fetch stage returns the original rows for every completion order
that completes all pages. -/
theorem get_results_via_eq (rows : List ρ) (order : List Nat)
    (hcov : ∀ k, k < (fetchedPages rows).length → k ∈ order) :
    get_results_via rows order = some rows := by
  rw [get_results_via, run_in_parallel_ok (fetchedPages rows) order hcov]
  exact congrArg some (get_results_rows_eq rows)

/-! ## Capability registry (`tools.py` `is_tool_for`, `config/tools.py`
`ToolType`)

`ToolType` is an `IntFlag`, modelled as a natural-number bitmask with
bitwise-and intersection. -/

/-- The `ToolType` bitmask values. `FOR_SELF`, `FOR_PROMETHEUS` and
`FOR_DATA_PATTERNS` are the successive `auto()` values declared in
`config/tools.py`. -/
abbrev ToolType := Nat

namespace ToolType

def FOR_SELF : ToolType := 1
def FOR_PROMETHEUS : ToolType := 2
def FOR_DATA_PATTERNS : ToolType := 4
/-- Modelled from the spec: `tools.py` reads `ToolType.EXPERIMENTAL`
(lines 154 and 452) but the member's declaration is missing from
`config/tools.py` in this snapshot. The spec (§3 ModeMask, §4.4) describes
"experimental" as one more mode flag with its own enable override; as the
next `IntFlag` `auto()` value it is 8. -/
def EXPERIMENTAL : ToolType := 8

end ToolType

/-- The fields of `settings.Dremio` that `is_tool_for` reads. -/
structure Dremio where
  project_id : Option String := none
  enable_experimental : Bool := false
deriving DecidableEq, Repr

/-- What `is_tool_for` extracts from a tool class through
`_get_class_var_hints`: the `For` annotation's `ToolType` mask if the class
carries one, and the `project_id_required` annotation (absent ↦ false,
matching the falsy `None` returned by `_get_class_var_hints`). -/
structure ToolClass where
  For : Option ToolType := none
  project_id_required : Bool := false
deriving DecidableEq, Repr

/-- Function `is_tool_for(tool, tool_type, dremio)` from `tools.py` lines 143–157,
with `dremio` the resolved configuration (the argument, or
`settings.instance().dremio` when the argument is `None`). The result is
`none` when the Python code would raise `AttributeError`
(`dremio.enable_experimental` on a `None` configuration), and `some b`
otherwise. -/
def is_tool_for (tool : ToolClass) (tool_type : ToolType) (dremio : Option Dremio) :
    Option Bool :=
  if tool.project_id_required &&
      (match dremio with
       | some d => d.project_id.isNone
       | none => false) then
    some false
  else
    match tool.For with
    | none => some false
    | some F =>
      if F &&& ToolType.EXPERIMENTAL ≠ 0 then
        match dremio with
        | none => none
        | some d =>
          if !d.enable_experimental then some false
          else some (decide (F &&& tool_type ≠ 0))
      else some (decide (F &&& tool_type ≠ 0))

/-! ## SQL safety gate (`tools.py`, `RunSqlQuery.ensure_query_allowed`)

The gate first tries `sqlglot.parse_one`; the parser is an external
dependency, so its outcome on a given statement enters the model as a
parameter: `none` for a parse exception, `some r` for a parse whose root
expression has kind `r` (`Select`, `With`, `Union`, or anything else). The
lexical fallback — the `re.search` over the deny-list with `\b` word
boundaries and `re.IGNORECASE` — is embedded concretely (word characters
taken as ASCII `[A-Za-z0-9_]`). -/

/-- The kind of the root expression `sqlglot.parse_one` returns. -/
inductive SqlRoot where
  | Select
  | With
  | Union
  | Other
deriving DecidableEq, Repr

/-- List `RunSqlQuery._safe`: the root kinds accepted by the structural check. -/
def safeRoots : List SqlRoot := [SqlRoot.Select, SqlRoot.With, SqlRoot.Union]

/-- A regex word character (`\w`), restricted to ASCII. -/
def isWordChar (c : Char) : Bool := c.isAlphanum || c == '_'

/-- The deny-list of the regex
`\b(drop|insert|update|truncate|delete|copy into|alter|create)\b`. -/
def mutationKeywords : List String :=
  ["drop", "insert", "update", "truncate", "delete", "copy into", "alter", "create"]

/-- Boundary `\b` holds before position `i`: start of string or preceding character
is not a word character. -/
def boundaryBefore (cs : List Char) (i : Nat) : Bool :=
  i = 0 || !(isWordChar (cs.getD (i - 1) ' '))

/-- Boundary `\b` holds after position `j` (exclusive end of the match): end of
string or following character is not a word character. -/
def boundaryAfter (cs : List Char) (j : Nat) : Bool :=
  cs.length ≤ j || !(isWordChar (cs.getD j ' '))

/-- True when `re.search(r"\b(drop|...|create)\b", s, re.IGNORECASE)` finds a match:
some deny-list keyword occurs in `s`, case-insensitively, with word
boundaries on both sides. -/
def hasMutationKeyword (s : String) : Bool :=
  let cs := s.data.map Char.toLower
  mutationKeywords.any (fun kw =>
    let k := kw.toList
    (List.range (cs.length + 1)).any (fun i =>
      decide ((cs.drop i).take k.length = k) &&
        boundaryBefore cs i && boundaryAfter cs (i + k.length)))

/-- Function `RunSqlQuery.ensure_query_allowed(s)` from `tools.py` lines 255–273:
`true` means the function returns (query allowed), `false` means it raises
`ValueError`. `allow_dml` is `settings.instance().dremio.allow_dml`;
`parsed` is the `sqlglot.parse_one` outcome on `s`. When the parse
succeeds, the structural check alone decides; the keyword scan runs only
under the `except` branch. -/
def ensure_query_allowed (allow_dml : Bool) (parsed : Option SqlRoot) (s : String) :
    Bool :=
  if allow_dml then true
  else
    match parsed with
    | some q => if safeRoots.any (fun t => q = t) then true else false
    | none => if !hasMutationKeyword s then true else false

/-! ## Claim theorems -/

theorem mem_fetchWindows {rc : Nat} (h : 0 < rc) {w : Nat × Nat} :
    w ∈ fetchWindows rc ↔
      w.2 = fetchLimit rc ∧ w.1 < rc ∧ w.1 % fetchLimit rc = 0 := by
  rw [fetchWindows, if_neg (by omega)]
  simp only [List.mem_map]
  constructor
  · rintro ⟨off, hm, rfl⟩
    obtain ⟨_, h2, h3⟩ := (mem_pyRange (fetchLimit_pos h)).mp hm
    simpa using ⟨h2, h3⟩
  · rintro ⟨h1, h2, h3⟩
    refine ⟨w.1, (mem_pyRange (fetchLimit_pos h)).mpr ⟨Nat.zero_le _, h2, by simpa using h3⟩, ?_⟩
    cases w
    simp only at h1
    simp [h1]

/-- C3: for a completed job with `row_count > 0`, `get_results` requests
pages at `(offset, limit)` windows with `limit = min(500, row_count)` and
the offsets exactly the multiples of `limit` below `row_count`; the windows
tile `[0, row_count)` — every row index lies in exactly one window — and
the pages are concatenated in ascending window order whatever the order in
which the page fetches complete. -/
theorem claim_C3_pagination (rc : Nat) (hrc : 0 < rc) :
    fetchLimit rc = min 500 rc
  ∧ (∀ w ∈ fetchWindows rc, w.2 = fetchLimit rc ∧ w.1 < rc ∧ fetchLimit rc ∣ w.1)
  ∧ (∀ m : Nat, m * fetchLimit rc < rc → (m * fetchLimit rc, fetchLimit rc) ∈ fetchWindows rc)
  ∧ (∀ i, i < rc → ∃! off,
        (off, fetchLimit rc) ∈ fetchWindows rc ∧ off ≤ i ∧ i < off + fetchLimit rc)
  ∧ (∀ (rows : List Nat) (order : List Nat), rows.length = rc →
        (∀ k, k < (fetchedPages rows).length → k ∈ order) →
        get_results_via rows order = some rows) := by
  have hL := fetchLimit_pos hrc
  refine ⟨rfl, ?_, ?_, ?_, ?_⟩
  · intro w hw
    obtain ⟨h1, h2, h3⟩ := (mem_fetchWindows hrc).mp hw
    exact ⟨h1, h2, Nat.dvd_of_mod_eq_zero h3⟩
  · intro m hm
    exact (mem_fetchWindows hrc).mpr ⟨rfl, hm, by simp [Nat.mul_mod_left]⟩
  · intro i hi
    refine ⟨fetchLimit rc * (i / fetchLimit rc), ⟨?_, ?_, ?_⟩, ?_⟩
    · refine (mem_fetchWindows hrc).mpr ⟨rfl, ?_, by simp [Nat.mul_mod_right]⟩
      have := Nat.div_add_mod i (fetchLimit rc)
      omega
    · have := Nat.div_add_mod i (fetchLimit rc)
      omega
    · have h1 := Nat.div_add_mod i (fetchLimit rc)
      have h2 := Nat.mod_lt i hL
      omega
    · rintro off' ⟨hmem', hle', hlt'⟩
      obtain ⟨-, -, hmod⟩ := (mem_fetchWindows hrc).mp hmem'
      obtain ⟨k, hk⟩ := Nat.dvd_of_mod_eq_zero (by simpa using hmod)
      subst hk
      have : i / fetchLimit rc = k :=
        Nat.div_eq_of_lt_le (by rw [Nat.mul_comm]; omega)
          (by rw [Nat.succ_mul, Nat.mul_comm]; omega)
      rw [this]
  · intro rows order hlen hcov
    exact get_results_via_eq rows order hcov

/-- C4: the assembled result's row count equals the sum of the fetched
pages' row counts and equals the job's declared row count (the length of
the complete row sequence the server holds). -/
theorem claim_C4_row_count (rows : List Nat) :
    (get_results_rows rows).length = ((fetchedPages rows).map List.length).sum
  ∧ (get_results_rows rows).length = rows.length := by
  constructor
  · rw [get_results_rows, List.length_flatten]
  · rw [get_results_rows_eq]

/-- C8: a job completed with `row_count = 0` short-circuits: no page window
is built, no fetch is issued, and the empty assembled result is returned. -/
theorem claim_C8_zero_rows (rows : List Nat) (h : rows.length = 0) :
    fetchWindows rows.length = []
  ∧ fetchedPages rows = []
  ∧ get_results_rows rows = []
  ∧ get_results_via rows [] = some [] := by
  have hnil : rows = [] := List.length_eq_zero.mp h
  subst hnil
  exact ⟨rfl, rfl, rfl, rfl⟩

theorem claim_C8_zero_rows_witness :
    fetchWindows (List.length ([] : List Nat)) = []
  ∧ fetchedPages ([] : List Nat) = []
  ∧ get_results_rows ([] : List Nat) = []
  ∧ get_results_via ([] : List Nat) [] = some [] :=
  claim_C8_zero_rows [] rfl

/-- C6: for every batch of operations handed to `run_in_parallel` and every
completion order that completes all of them, the results come back in input
order (`max_concurrent_tasks` defaulting to 10), and if any operation
raises, the whole batch fails. -/
theorem claim_C6_executor (β : Type) (vals : List β) (evals : List (Except String β))
    (order : List Nat) (e : String) :
    defaultMaxConcurrentTasks = 10
  ∧ ((∀ i, i < vals.length → i ∈ order) →
      run_in_parallel (ε := String) (vals.map Except.ok) order = .ok vals)
  ∧ (Except.error e ∈ evals → (∀ i, i < evals.length → i ∈ order) →
      ∃ e', run_in_parallel evals order = .error e') :=
  ⟨rfl, fun h => run_in_parallel_ok vals order h,
    fun he h => run_in_parallel_fails evals order e he h⟩

theorem claim_C6_executor_witness :
    run_in_parallel (ε := String) ([3, 1, 2].map Except.ok) [2, 0, 1] = .ok [3, 1, 2]
  ∧ ∃ e', run_in_parallel [Except.ok 5, Except.error "boom"] [1, 0] = .error e' :=
  ⟨(claim_C6_executor Nat [3, 1, 2] [] [2, 0, 1] "").2.1
      (by intro i hi; simp at hi; interval_cases i <;> decide),
   (claim_C6_executor Nat [] [Except.ok 5, Except.error "boom"] [1, 0] "boom").2.2
      (by simp) (by intro i hi; simp at hi; interval_cases i <;> decide)⟩

/-- C7: for every permit count `n` and batch size, every state the
semaphore-guarded executor can reach has at most `n` operations in
flight. -/
theorem claim_C7_semaphore_bound (n total : Nat) (s : ExecState)
    (h : ExecReachable n total s) : s.inFlight ≤ n := by
  induction h with
  | refl => exact Nat.zero_le n
  | tail _ hstep ih =>
    cases hstep with
    | acquire p r f hr => exact hr
    | release p r f => simp only at ih ⊢; omega

theorem claim_C7_semaphore_bound_witness :
    (⟨1, 2, 0⟩ : ExecState).inFlight ≤ 2 :=
  claim_C7_semaphore_bound 2 3 ⟨1, 2, 0⟩
    (Relation.ReflTransGen.tail
      (Relation.ReflTransGen.tail Relation.ReflTransGen.refl
        (SemStep.acquire 2 0 0 (by omega)))
      (SemStep.acquire 1 1 0 (by omega)))

/-- C9: the polling loop exits exactly at the first poll observing a
terminal state; the terminal states are exactly COMPLETED, CANCELED and
FAILED; the sleep between polls is a fixed 500 ms; and with no terminal
observation the loop polls forever (no timeout, no retry bound). -/
theorem claim_C9_polling :
    (∀ j : Job, j.done = true ↔
        (j.job_state = JobState.COMPLETED ∨ j.job_state = JobState.CANCELED ∨
          j.job_state = JobState.FAILED))
  ∧ pollSleepSeconds * 1000 = 500
  ∧ (∀ (jobs : Nat → Job) (fuel r : Nat), pollLoop jobs fuel 0 = some r →
        (jobs r).done = true ∧ ∀ i, i < r → (jobs i).done = false)
  ∧ (∀ (jobs : Nat → Job) (r : Nat), (jobs r).done = true →
        (∀ i, i < r → (jobs i).done = false) → pollLoop jobs (r + 1) 0 = some r)
  ∧ (∀ (jobs : Nat → Job), (∀ i, (jobs i).done = false) →
        ∀ fuel k, pollLoop jobs fuel k = none) := by
  refine ⟨?_, by norm_num [pollSleepSeconds], ?_, ?_, ?_⟩
  · intro j; simp [Job.done]
  · intro jobs fuel r h
    obtain ⟨h1, _, h3⟩ := pollLoop_done h
    exact ⟨h1, fun i hi => h3 i (Nat.zero_le i) hi⟩
  · intro jobs r h1 h2
    exact pollLoop_exits h1 h2
  · intro jobs h fuel k
    exact pollLoop_no_timeout h fuel k

theorem claim_C9_polling_witness :
    pollLoop
        (fun k => if k < 3 then { job_state := JobState.RUNNING, row_count := 0 }
                  else { job_state := JobState.COMPLETED, row_count := 5 }) 4 0 = some 3
  ∧ pollLoop (fun _ => { job_state := JobState.RUNNING, row_count := 0 }) 7 2 = none :=
  ⟨claim_C9_polling.2.2.2.1 _ 3 (by decide)
      (by intro i hi; interval_cases i <;> decide),
   claim_C9_polling.2.2.2.2 _ (fun i => by decide) 7 2⟩

/-- A CANCELED job carrying both an error message and a cancellation
reason. -/
def jobC5 : Job :=
  { job_state := JobState.CANCELED, row_count := 0,
    error_message := some "query failed", cancellation_reason := some "canceled by user" }

/-- C5 counterexample: on a CANCELED job with both fields present the code
surfaces the error message, while the claim ("the cancellation reason if
present, else the job's error message") demands the cancellation reason. -/
theorem claim_C5_counterexample :
    jobErrorMessage jobC5 = some "query failed"
  ∧ specErrorMessageC5 jobC5 = some "canceled by user"
  ∧ jobErrorMessage jobC5 ≠ specErrorMessageC5 jobC5 := by
  refine ⟨by decide, by decide, by decide⟩

/-- C5 amended: on FAILED the surfaced message is the job's error message,
or "Unknown error" if none (empty or absent); on CANCELED it is the job's
error message if present, else the cancellation reason (possibly absent). -/
theorem claim_C5_amended (j : Job) :
    (j.job_state = JobState.FAILED →
      jobErrorMessage j =
        (if pyTruthy j.error_message then j.error_message else some "Unknown error"))
  ∧ (j.job_state = JobState.CANCELED →
      jobErrorMessage j =
        (if pyTruthy j.error_message then j.error_message else j.cancellation_reason)) := by
  constructor
  · intro hs
    simp [jobErrorMessage, hs]
  · intro hs
    simp [jobErrorMessage, hs]

theorem claim_C5_amended_witness :
    jobErrorMessage { job_state := JobState.FAILED, row_count := 0 } = some "Unknown error"
  ∧ jobErrorMessage jobC5 = some "query failed" :=
  ⟨((claim_C5_amended _).1 rfl).trans (by decide),
   ((claim_C5_amended jobC5).2 rfl).trans (by decide)⟩

/-- C1: the SQL safety gate admits everything when `allow_dml` is set;
otherwise a statement whose parse root is SELECT, WITH or UNION is safe, a
statement that fails to parse is safe exactly when the deny-list keyword
scan finds no whole-word match, and a statement that parses to any other
root is rejected. -/
theorem claim_C1_sql_gate (s : String) (parsed : Option SqlRoot) (allow : Bool) :
    (allow = true → ensure_query_allowed allow parsed s = true)
  ∧ (∀ q, parsed = some q → q ∈ safeRoots → allow = false →
      ensure_query_allowed allow parsed s = true)
  ∧ (allow = false → parsed = none →
      (ensure_query_allowed allow parsed s = true ↔ hasMutationKeyword s = false))
  ∧ (∀ q, parsed = some q → q ∉ safeRoots → allow = false →
      ensure_query_allowed allow parsed s = false) := by
  refine ⟨?_, ?_, ?_, ?_⟩
  · intro h
    simp [ensure_query_allowed, h]
  · intro q hp hq ha
    subst hp
    subst ha
    have hany : safeRoots.any (fun t => q = t) = true :=
      List.any_eq_true.mpr ⟨q, hq, by simp⟩
    simp [ensure_query_allowed, hany]
  · intro ha hp
    subst ha
    subst hp
    cases hm : hasMutationKeyword s <;> simp [ensure_query_allowed, hm]
  · intro q hp hq ha
    subst hp
    subst ha
    have hany : safeRoots.any (fun t => q = t) = false := by
      rw [List.any_eq_false]
      intro t ht
      have hne : q ≠ t := fun he => hq (by rw [he]; exact ht)
      simpa using hne
    simp [ensure_query_allowed, hany]

set_option maxRecDepth 4000 in
theorem claim_C1_sql_gate_witness :
    ensure_query_allowed false (some SqlRoot.Select) "SELECT * FROM t" = true
  ∧ ensure_query_allowed false (some SqlRoot.Other) "DROP TABLE t" = false
  ∧ ensure_query_allowed true (some SqlRoot.Other) "DROP TABLE t" = true
  ∧ ensure_query_allowed false (some SqlRoot.Select)
      "select id from t where x='drop this'" = true
  ∧ ensure_query_allowed false none "DROP TABLE t" = false
  ∧ ensure_query_allowed false none "SELECT * FROM t" = true
  ∧ hasMutationKeyword "select id from t where x='drop this'" = true :=
  ⟨(claim_C1_sql_gate _ _ _).2.1 _ rfl (by decide) rfl,
   (claim_C1_sql_gate _ _ _).2.2.2 _ rfl (by decide) rfl,
   (claim_C1_sql_gate _ _ _).1 rfl,
   (claim_C1_sql_gate _ _ _).2.1 _ rfl (by decide) rfl,
   by
    have h := (claim_C1_sql_gate "DROP TABLE t" none false).2.2.1 rfl rfl
    simpa [show hasMutationKeyword "DROP TABLE t" = true by decide] using h,
   by
    have h := (claim_C1_sql_gate "SELECT * FROM t" none false).2.2.1 rfl rfl
    exact h.mpr (by decide),
   by decide⟩

/-- C2: for a tool carrying a `For` mask, under a present configuration the
availability check equals: the mask intersects the runtime mode, AND the
tool is not experimental or experimental access is enabled, AND the
project-identifier precondition (when tagged) holds; spelled both as a
closed-form evaluation and as the exposure iff. -/
theorem claim_C2_tool_exposure (tool : ToolClass) (F : ToolType) (d : Dremio)
    (M : ToolType) (hF : tool.For = some F) :
    is_tool_for tool M (some d)
      = some ((decide (F &&& M ≠ 0)) &&
          ((decide (F &&& ToolType.EXPERIMENTAL = 0)) || d.enable_experimental) &&
          (!tool.project_id_required || !d.project_id.isNone))
  ∧ (is_tool_for tool M (some d) = some true ↔
      ((F &&& M ≠ 0) ∧ (F &&& ToolType.EXPERIMENTAL ≠ 0 → d.enable_experimental = true) ∧
        (tool.project_id_required = true → d.project_id ≠ none))) := by
  have heq : is_tool_for tool M (some d)
      = some ((decide (F &&& M ≠ 0)) &&
          ((decide (F &&& ToolType.EXPERIMENTAL = 0)) || d.enable_experimental) &&
          (!tool.project_id_required || !d.project_id.isNone)) := by
    rw [is_tool_for, hF]
    rcases d with ⟨pid, ee⟩
    cases hpr : tool.project_id_required <;> cases ee <;> cases pid <;>
      by_cases h1 : F &&& ToolType.EXPERIMENTAL = 0 <;>
        simp_all
  refine ⟨heq, ?_⟩
  rw [heq]
  rcases d with ⟨pid, ee⟩
  cases hpr : tool.project_id_required <;> cases ee <;> cases pid <;>
    by_cases h1 : F &&& ToolType.EXPERIMENTAL = 0 <;>
      by_cases h2 : F &&& M = 0 <;>
        simp_all

theorem claim_C2_tool_exposure_witness :
    is_tool_for { For := some (ToolType.FOR_SELF ||| ToolType.FOR_PROMETHEUS) }
        (ToolType.FOR_PROMETHEUS ||| ToolType.FOR_DATA_PATTERNS)
        (some { project_id := some "proj" }) = some true
  ∧ is_tool_for { For := some (ToolType.FOR_SELF ||| ToolType.FOR_PROMETHEUS) }
        ToolType.FOR_DATA_PATTERNS
        (some { project_id := some "proj" }) = some false :=
  ⟨((claim_C2_tool_exposure _ _ _ _ rfl).1).trans (by decide),
   ((claim_C2_tool_exposure _ _ _ _ rfl).1).trans (by decide)⟩

/-- C10: a tool class without a `For` annotation is never exposed: the
availability check returns false for every runtime mode and every
configuration (present or absent). -/
theorem claim_C10_no_mask (tool : ToolClass) (M : ToolType) (dremio : Option Dremio)
    (h : tool.For = none) : is_tool_for tool M dremio = some false := by
  rw [is_tool_for.eq_def, h]
  split <;> rfl

theorem claim_C10_no_mask_witness :
    is_tool_for { For := none, project_id_required := true }
      (ToolType.FOR_SELF ||| ToolType.FOR_DATA_PATTERNS)
      (some { enable_experimental := true }) = some false :=
  claim_C10_no_mask _ _ _ rfl

set_option maxRecDepth 40000 in
theorem claim_C3_pagination_witness :
    fetchLimit 501 = 500
  ∧ (500, 500) ∈ fetchWindows 501
  ∧ get_results_via (List.range 501) [1, 0] = some (List.range 501) := by
  refine ⟨(claim_C3_pagination 501 (by omega)).1.trans (by decide), ?_, ?_⟩
  · have h := (claim_C3_pagination 501 (by omega)).2.2.1 1 (by decide)
    simpa using h
  · refine (claim_C3_pagination 501 (by omega)).2.2.2.2 (List.range 501) [1, 0]
      (by simp) ?_
    intro k hk
    have hlen : (fetchedPages (List.range 501)).length = 2 := by decide
    rw [hlen] at hk
    interval_cases k <;> decide
